import Mathlib

/-
Verification of the pagerank-rs client library (src/src/lib.rs).

Strings are modeled as `List Char` (one element per Unicode scalar value,
matching Rust's `String::pop` / `ends_with(char)` granularity).  The HTTP
transport, the header-value validity check of the `http` crate, and the JSON
codec of `serde_json` are external to the repository; they are modeled as
explicit parameters or as a shallow JSON syntax tree, so that the library's
own logic is embedded exactly as written.
-/

namespace PagerankRs

/-- Embeds `PageRank::remove_trailing_slash` (src/src/lib.rs lines 78-84):
`let mut s = s.to_string(); while s.ends_with('/') { s.pop(); } return s`.
Each loop iteration pops the last character while it is `'/'`. -/
def remove_trailing_slash (s : List Char) : List Char :=
  if _h : s.getLast? = some '/' then remove_trailing_slash s.dropLast else s
termination_by s.length
decreasing_by
  cases s with
  | nil => simp at _h
  | cons a t => simp

/-- Unfolding equation for the slash-popping loop when the string ends in `'/'`. -/
theorem remove_trailing_slash_pos (s : List Char) (h : s.getLast? = some '/') :
    remove_trailing_slash s = remove_trailing_slash s.dropLast := by
  rw [remove_trailing_slash]
  simp [h]

/-- Unfolding equation for the slash-popping loop when the string does not end in `'/'`. -/
theorem remove_trailing_slash_neg (s : List Char) (h : ¬ s.getLast? = some '/') :
    remove_trailing_slash s = s := by
  rw [remove_trailing_slash]
  simp [h]

/-- The normalized string never ends in `'/'`. -/
theorem remove_trailing_slash_getLast (s : List Char) :
    ¬ (remove_trailing_slash s).getLast? = some '/' := by
  induction s using remove_trailing_slash.induct with
  | case1 s h ih => rw [remove_trailing_slash_pos s h]; exact ih
  | case2 s h => rw [remove_trailing_slash_neg s h]; exact h

/-- The input decomposes as its normalization followed by some run of `'/'`
characters: the loop removes trailing slashes and changes nothing else. -/
theorem remove_trailing_slash_decomp (s : List Char) :
    ∃ k, s = remove_trailing_slash s ++ List.replicate k '/' := by
  induction s using remove_trailing_slash.induct with
  | case1 s h ih =>
      have hne : s ≠ [] := by
        intro he; rw [he] at h; simp at h
      have hlast : s.getLast hne = '/' := by
        have := List.getLast?_eq_getLast s hne
        rw [this, Option.some_inj] at h
        exact h
      have hs : s.dropLast ++ ['/'] = s := by
        rw [← hlast]; exact List.dropLast_append_getLast hne
      obtain ⟨k, hk⟩ := ih
      refine ⟨k + 1, ?_⟩
      rw [remove_trailing_slash_pos s h, List.replicate_succ',
        ← List.append_assoc, ← hk, hs]
  | case2 s h =>
      exact ⟨0, by rw [remove_trailing_slash_neg s h]; simp⟩

/-- Among all decompositions `s = t ++ u` with `t` not ending in `'/'`, the
normalization is the longest such `t`. -/
theorem remove_trailing_slash_longest (s t u : List Char)
    (hs : s = t ++ u) (ht : ¬ t.getLast? = some '/') :
    t.length ≤ (remove_trailing_slash s).length := by
  induction s using remove_trailing_slash.induct generalizing t u with
  | case1 s h ih =>
      rcases u.eq_nil_or_concat with hu | ⟨u', c, hu⟩
      · exfalso
        rw [hu, List.append_nil] at hs
        rw [← hs] at ht
        exact ht h
      · have hdrop : s.dropLast = t ++ u' := by
          rw [hs, hu, List.concat_eq_append, ← List.append_assoc]
          simp
        rw [remove_trailing_slash_pos s h]
        exact ih t u' hdrop ht
  | case2 s h =>
      rw [remove_trailing_slash_neg s h, hs]
      simp

/-- Step-bounded version of the slash-popping loop: `none` means the fuel ran
out before the `while` condition became false.  Used to bound the number of
loop iterations of `remove_trailing_slash`. -/
def remove_trailing_slash_fuel : Nat → List Char → Option (List Char)
  | 0, s => if s.getLast? = some '/' then none else some s
  | n + 1, s =>
      if s.getLast? = some '/' then remove_trailing_slash_fuel n s.dropLast
      else some s

/-- The loop terminates within `s.length` iterations: running it with any fuel
of at least the input's length yields the unbounded loop's result. -/
theorem remove_trailing_slash_fuel_eq (n : Nat) (s : List Char)
    (h : s.length ≤ n) :
    remove_trailing_slash_fuel n s = some (remove_trailing_slash s) := by
  induction n generalizing s with
  | zero =>
      have hs : s = [] := List.eq_nil_of_length_eq_zero (Nat.le_zero.mp h)
      subst hs
      simp [remove_trailing_slash_fuel, remove_trailing_slash_neg [] (by simp)]
  | succ n ih =>
      by_cases hl : s.getLast? = some '/'
      · have hne : s ≠ [] := by
          intro he; rw [he] at hl; simp at hl
        have hlen : s.dropLast.length ≤ n := by
          rw [List.length_dropLast]
          omega
        rw [remove_trailing_slash_fuel, if_pos hl, ih s.dropLast hlen,
          remove_trailing_slash_pos s hl]
      · rw [remove_trailing_slash_fuel, if_neg hl,
          remove_trailing_slash_neg s hl]

/-- Model of IEEE-754 single-precision values by their 32-bit pattern; the
library never computes with `page_rank_decimal`, it only carries it. -/
abbrev F32 := Nat

/-- Embeds `struct Response` (src/src/lib.rs lines 11-19): one domain's rank
result as deserialized from the service. -/
structure Response where
  status_code : Nat
  error : String
  page_rank_integer : Nat
  page_rank_decimal : F32
  rank : Option String
  domain : String
deriving DecidableEq, Repr

/-- Embeds `struct PageRank` (src/src/lib.rs lines 21-26): the batch result. -/
structure PageRank where
  status_code : Nat
  response : List Response
  last_updated : String
deriving DecidableEq, Repr

/-- Embeds `struct PageRankFirst` (src/src/lib.rs lines 28-33). -/
structure PageRankFirst where
  status_code : Nat
  response : Response
  last_updated : String
deriving DecidableEq, Repr

/-- Embeds `impl TryInto<PageRankFirst> for PageRank` (src/src/lib.rs lines
36-49): take element 0 of `response`, or fail with "no response found". -/
def try_into (self : PageRank) : Except String PageRankFirst :=
  match self.response[0]? with
  | some response =>
      Except.ok { status_code := self.status_code, response := response,
                  last_updated := self.last_updated }
  | none => Except.error "no response found"

/-- Embeds `API_ROOT` (src/src/lib.rs line 9). -/
def API_ROOT : String := "https://openpagerank.com/api/v1.0/getPageRank"

/-- Embeds the query construction of `PageRank::rank` (src/src/lib.rs lines
63-64): first normalize every domain, then pair each with the literal
parameter name `domains[]`. -/
def build_query (domains : List (List Char)) : List (String × List Char) :=
  let normalized := domains.map remove_trailing_slash
  normalized.map (fun x => ("domains[]", x))

/-- An outbound HTTP GET request as assembled by `PageRank::rank`: target URL,
default headers, query parameters and per-request timeout. -/
structure HttpRequest where
  url : String
  headers : List (String × List Char)
  query : List (String × List Char)
  timeout : Nat
deriving DecidableEq, Repr

/-- Embeds `PageRank::rank` (src/src/lib.rs lines 52-75) with its external
effects made explicit.  `valid_header_value` models the success condition of
`HeaderValue::from_str` (code of the `http` crate, outside this repository);
on failure the `?` on line 56 returns the error before any request exists.
`send` models the whole round-trip of lines 66-72 (client build, GET,
deserialization); the second component of the result is the list of requests
issued during the call. -/
def rank (valid_header_value : List Char → Bool)
    (send : HttpRequest → Except String PageRank)
    (domains : List (List Char)) (key : List Char) (timeout : Nat) :
    Except String PageRank × List HttpRequest :=
  if valid_header_value key then
    let req : HttpRequest :=
      { url := API_ROOT, headers := [("API-OPR", key)],
        query := build_query domains, timeout := timeout }
    (send req, [req])
  else
    (Except.error "failed to parse header value", [])

/-- Shallow JSON syntax tree.  Numbers mirror the two `serde_json` cases the
library can produce: unsigned integers (for `u16`/`u32` fields) and floats
(for the `f32` field, carried by bit pattern; `serde_json` round-trips `f32`
values exactly via shortest-representation printing). -/
inductive Json where
  | null : Json
  | str : String → Json
  | numU : Nat → Json
  | numF : F32 → Json
  | arr : List Json → Json
  | obj : List (String × Json) → Json

/-- Decoder for a `u16` field: a JSON unsigned integer below `2^16`. -/
def jAsU16 : Json → Option Nat
  | Json.numU n => if n < 65536 then some n else none
  | _ => none

/-- Decoder for a `u32` field: a JSON unsigned integer below `2^32`. -/
def jAsU32 : Json → Option Nat
  | Json.numU n => if n < 4294967296 then some n else none
  | _ => none

/-- Decoder for an `f32` field. -/
def jAsF32 : Json → Option F32
  | Json.numF b => some b
  | _ => none

/-- Decoder for a `String` field. -/
def jAsStr : Json → Option String
  | Json.str s => some s
  | _ => none

/-- Decoder for an `Option<String>` field: `null` is `None`, a string is
`Some` (the derived serde behavior). -/
def jAsOptStr : Json → Option (Option String)
  | Json.null => some none
  | Json.str s => some (some s)
  | _ => none

/-- Serialization of `Response` as produced by the derived `Serialize`
implementation: an object with the six fields in declaration order. -/
def response_to_json (r : Response) : Json :=
  Json.obj [("status_code", Json.numU r.status_code),
            ("error", Json.str r.error),
            ("page_rank_integer", Json.numU r.page_rank_integer),
            ("page_rank_decimal", Json.numF r.page_rank_decimal),
            ("rank", match r.rank with
                     | none => Json.null
                     | some s => Json.str s),
            ("domain", Json.str r.domain)]

/-- Deserialization of `Response` as performed by the derived `Deserialize`
implementation: look each field up by name and decode it at its Rust type. -/
def response_from_json : Json → Option Response
  | Json.obj fields => do
      let sc ← List.lookup "status_code" fields >>= jAsU16
      let er ← List.lookup "error" fields >>= jAsStr
      let pi ← List.lookup "page_rank_integer" fields >>= jAsU32
      let pd ← List.lookup "page_rank_decimal" fields >>= jAsF32
      let rk ← List.lookup "rank" fields >>= jAsOptStr
      let dm ← List.lookup "domain" fields >>= jAsStr
      some ⟨sc, er, pi, pd, rk, dm⟩
  | _ => none

/-- Serialization of `PageRank` (derived `Serialize`): an object with the
three fields, `response` as an array of serialized entries. -/
def pagerank_to_json (p : PageRank) : Json :=
  Json.obj [("status_code", Json.numU p.status_code),
            ("response", Json.arr (p.response.map response_to_json)),
            ("last_updated", Json.str p.last_updated)]

/-- Deserialization of a `Vec<Response>`: each array element in order, failing
if any element fails. -/
def responses_from_json : List Json → Option (List Response)
  | [] => some []
  | j :: rest => do
      let r ← response_from_json j
      let rs ← responses_from_json rest
      some (r :: rs)

/-- Deserialization of `PageRank` (derived `Deserialize`). -/
def pagerank_from_json : Json → Option PageRank
  | Json.obj fields => do
      let sc ← List.lookup "status_code" fields >>= jAsU16
      let rsJson ← List.lookup "response" fields
      let rs ← match rsJson with
               | Json.arr xs => responses_from_json xs
               | _ => none
      let lu ← List.lookup "last_updated" fields >>= jAsStr
      some ⟨sc, rs, lu⟩
  | _ => none

/-- Round trip for a single `Response` entry: the field bounds come from the
Rust types (`u16`, `u32`). -/
theorem response_round_trip (r : Response) (h1 : r.status_code < 65536)
    (h2 : r.page_rank_integer < 4294967296) :
    response_from_json (response_to_json r) = some r := by
  cases r with
  | mk sc er pi pd rk dm =>
      cases rk <;>
        simp [response_to_json, response_from_json, List.lookup, jAsU16,
          jAsU32, jAsF32, jAsStr, jAsOptStr, h1, h2] at *

/-- Round trip for a list of `Response` entries. -/
theorem responses_round_trip (rs : List Response)
    (h : ∀ r ∈ rs, r.status_code < 65536 ∧ r.page_rank_integer < 4294967296) :
    responses_from_json (rs.map response_to_json) = some rs := by
  induction rs with
  | nil => rfl
  | cons r rs ih =>
      have hr := h r (List.mem_cons_self r rs)
      have hrest : ∀ x ∈ rs, x.status_code < 65536 ∧ x.page_rank_integer < 4294967296 :=
        fun x hx => h x (List.mem_cons_of_mem r hx)
      rw [List.map_cons, responses_from_json, response_round_trip r hr.1 hr.2,
        ih hrest]
      rfl

/-- Claim C1: the domain normalization performed by the rank operation returns
the input with all trailing `'/'` characters removed and makes no other
change: the input is the result followed by a run of `'/'`, the result is the
longest decomposition head not ending in `'/'`, and any input not ending in
`'/'` is returned unchanged. -/
theorem trailing_slash_normalization_exact (s : List Char) :
    (∃ k, s = remove_trailing_slash s ++ List.replicate k '/')
    ∧ ¬ (remove_trailing_slash s).getLast? = some '/'
    ∧ (∀ t u, s = t ++ u → ¬ t.getLast? = some '/' →
        t.length ≤ (remove_trailing_slash s).length)
    ∧ (¬ s.getLast? = some '/' → remove_trailing_slash s = s) :=
  ⟨remove_trailing_slash_decomp s, remove_trailing_slash_getLast s,
   fun t u hs ht => remove_trailing_slash_longest s t u hs ht,
   fun h => remove_trailing_slash_neg s h⟩

/-- Witness for C1 at a concrete input: the longest-head bound at
`"ex//" = "ex" ++ "//"`, and the unchanged case at `"ex"`. -/
theorem trailing_slash_normalization_exact_witness :
    (['e', 'x'] : List Char).length
        ≤ (remove_trailing_slash ['e', 'x', '/', '/']).length
    ∧ remove_trailing_slash ['e', 'x'] = ['e', 'x'] :=
  ⟨(trailing_slash_normalization_exact ['e', 'x', '/', '/']).2.2.1
      ['e', 'x'] ['/', '/'] rfl (by decide),
   (trailing_slash_normalization_exact ['e', 'x']).2.2.2 (by decide)⟩

/-- Claim C2: converting a batch result with a non-empty response list
succeeds, and the produced value carries the first response entry together
with the batch's top-level `status_code` and `last_updated`. -/
theorem try_into_nonempty_takes_first (p : PageRank) (r : Response)
    (rs : List Response) (h : p.response = r :: rs) :
    try_into p = Except.ok ⟨p.status_code, r, p.last_updated⟩ := by
  simp [try_into, h]

/-- Witness for C2 at a concrete one-entry batch result. -/
theorem try_into_nonempty_takes_first_witness :
    try_into ⟨200, [⟨200, "", 5, 1078530011, some "5", "example.com"⟩], "2024"⟩
      = Except.ok ⟨200, ⟨200, "", 5, 1078530011, some "5", "example.com"⟩, "2024"⟩ :=
  try_into_nonempty_takes_first
    ⟨200, [⟨200, "", 5, 1078530011, some "5", "example.com"⟩], "2024"⟩
    ⟨200, "", 5, 1078530011, some "5", "example.com"⟩ [] rfl

/-- Claim C3: the conversion to the single-entry form fails exactly on an
empty response list, and the failure is the "no response" error. -/
theorem try_into_error_iff_empty (p : PageRank) :
    (try_into p = Except.error "no response found" ↔ p.response = [])
    ∧ ((∃ v, try_into p = Except.ok v) ↔ ¬ p.response = []) := by
  cases hp : p.response with
  | nil => simp [try_into, hp]
  | cons r rs => simp [try_into, hp]

/-- Witness for C3: the error case at an empty batch, the success case at a
non-empty one. -/
theorem try_into_error_iff_empty_witness :
    try_into ⟨200, [], "2024"⟩ = Except.error "no response found"
    ∧ ∃ v, try_into ⟨200, [⟨0, "err", 0, 0, none, "d"⟩], "2024"⟩ = Except.ok v :=
  ⟨(try_into_error_iff_empty ⟨200, [], "2024"⟩).1.mpr rfl,
   (try_into_error_iff_empty ⟨200, [⟨0, "err", 0, 0, none, "d"⟩], "2024"⟩).2.mpr
     (by decide)⟩

/-- Claim C4: domain normalization is idempotent. -/
theorem normalization_idempotent (s : List Char) :
    remove_trailing_slash (remove_trailing_slash s) = remove_trailing_slash s :=
  remove_trailing_slash_neg _ (remove_trailing_slash_getLast s)

/-- Claim C5: the request query holds exactly one `domains[]` parameter per
input domain, in input order, valued by the normalized domain; an empty input
yields an empty query. -/
theorem rank_query_one_param_per_domain (domains : List (List Char)) (i : Nat) :
    (build_query domains).length = domains.length
    ∧ (build_query domains)[i]? =
        (domains[i]?).map (fun d => ("domains[]", remove_trailing_slash d)) := by
  refine ⟨by simp [build_query], ?_⟩
  simp only [build_query, List.getElem?_map]
  cases domains[i]? <;> rfl

/-- Claim C6: an API key rejected by the header-value encoding makes the rank
operation fail before any request is issued; an accepted key is attached under
the header name `API-OPR` on the single request that is issued. -/
theorem rank_header_encoding (valid : List Char → Bool)
    (send : HttpRequest → Except String PageRank)
    (domains : List (List Char)) (key : List Char) (timeout : Nat) :
    (valid key = false →
      rank valid send domains key timeout =
        (Except.error "failed to parse header value", []))
    ∧ (valid key = true →
      rank valid send domains key timeout =
        (send { url := API_ROOT, headers := [("API-OPR", key)],
                query := build_query domains, timeout := timeout },
         [{ url := API_ROOT, headers := [("API-OPR", key)],
            query := build_query domains, timeout := timeout }])) := by
  constructor
  · intro h
    simp [rank, h]
  · intro h
    simp [rank, h]

/-- Witness for C6: a rejecting validity check at a concrete key, and an
accepting one whose request carries the key under `API-OPR`. -/
theorem rank_header_encoding_witness :
    rank (fun _ => false) (fun _ => Except.ok ⟨0, [], ""⟩) [] ['k'] 1 =
      (Except.error "failed to parse header value", [])
    ∧ rank (fun _ => true) (fun _ => Except.ok ⟨0, [], ""⟩) [] ['k'] 1 =
      (Except.ok ⟨0, [], ""⟩,
       [{ url := API_ROOT, headers := [("API-OPR", ['k'])],
          query := [], timeout := 1 }]) :=
  ⟨(rank_header_encoding (fun _ => false) (fun _ => Except.ok ⟨0, [], ""⟩)
      [] ['k'] 1).1 rfl,
   (rank_header_encoding (fun _ => true) (fun _ => Except.ok ⟨0, [], ""⟩)
      [] ['k'] 1).2 rfl⟩

/-- Claim C7: serializing a batch result to JSON and deserializing it back
yields the original structure, field for field, given the bounds the Rust
integer types (`u16`, `u32`) impose on the numeric fields. -/
theorem pagerank_json_round_trip (p : PageRank) (h0 : p.status_code < 65536)
    (h : ∀ r ∈ p.response,
        r.status_code < 65536 ∧ r.page_rank_integer < 4294967296) :
    pagerank_from_json (pagerank_to_json p) = some p := by
  cases p with
  | mk sc rs lu =>
      simp only [pagerank_to_json, pagerank_from_json, List.lookup] at *
      simp [responses_round_trip rs h, h0, jAsU16, jAsStr]

/-- Witness for C7 at a concrete batch with a ranked and an unranked entry. -/
theorem pagerank_json_round_trip_witness :
    pagerank_from_json (pagerank_to_json
        ⟨200, [⟨200, "", 5, 1078530011, some "5", "example.com"⟩,
               ⟨404, "not found", 0, 0, none, "nope.example"⟩], "2024-01-01"⟩)
      = some ⟨200, [⟨200, "", 5, 1078530011, some "5", "example.com"⟩,
                    ⟨404, "not found", 0, 0, none, "nope.example"⟩], "2024-01-01"⟩ :=
  pagerank_json_round_trip
    ⟨200, [⟨200, "", 5, 1078530011, some "5", "example.com"⟩,
           ⟨404, "not found", 0, 0, none, "nope.example"⟩], "2024-01-01"⟩
    (by decide) (by decide)

/-- Claim C9: the trailing-slash-removal loop terminates for every input: a
fuel of the input's length already suffices to reach the loop's fixpoint. -/
theorem remove_trailing_slash_terminates (s : List Char) :
    remove_trailing_slash_fuel s.length s = some (remove_trailing_slash s) :=
  remove_trailing_slash_fuel_eq s.length s le_rfl

/-- Claim C10: an input consisting entirely of `'/'` characters normalizes to
the empty string, and the query built for it still holds one `domains[]`
parameter with the empty value rather than dropping it. -/
theorem all_slash_normalizes_empty (s : List Char) (h : ∀ c ∈ s, c = '/') :
    remove_trailing_slash s = [] ∧ build_query [s] = [("domains[]", [])] := by
  have hempty : remove_trailing_slash s = [] := by
    by_contra hne
    have hlast := remove_trailing_slash_getLast s
    obtain ⟨k, hk⟩ := remove_trailing_slash_decomp s
    have h1 : (remove_trailing_slash s).getLast hne ∈ remove_trailing_slash s :=
      List.getLast_mem hne
    have hsub : ∀ x, x ∈ remove_trailing_slash s → x ∈ s := by
      intro x hx
      rw [hk]
      exact List.mem_append_left _ hx
    have h2 : (remove_trailing_slash s).getLast hne ∈ s := hsub _ h1
    apply hlast
    rw [List.getLast?_eq_getLast _ hne, h _ h2]
  exact ⟨hempty, by simp [build_query, hempty]⟩

/-- Witness for C10 at the concrete inputs `"/"` and `"//"`. -/
theorem all_slash_normalizes_empty_witness :
    remove_trailing_slash ['/'] = []
    ∧ build_query [['/', '/']] = [("domains[]", [])] :=
  ⟨(all_slash_normalizes_empty ['/'] (by decide)).1,
   (all_slash_normalizes_empty ['/', '/'] (by decide)).2⟩

end PagerankRs
